import Mathlib

/-!
Shallow embedding of `cc2olx/olx.py`: conversion of a normalized Common
Cartridge course outline into OLX nodes.  Python strings are modelled as
`List Char` (wrapped in `String` at the API boundary), Python dictionaries as
ordered association lists (insertion order preserved), `xml.dom.minidom`
elements as an inductive tree, and raised exceptions as `Except` values.
-/

/-- A value stored in a detail dictionary: either a string, or a
string-to-string mapping (used for `custom_parameters` of LTI details). -/
inductive DVal where
  | str (s : String)
  | dict (entries : List (String × String))
deriving DecidableEq

/-- A detail dictionary: ordered key/value pairs, looked up by exact key. -/
abbrev Details := List (String × DVal)

/-- An XML node as built through `xml.dom.minidom` in `olx.py`: an element
with a tag, ordered attributes and ordered children, or a CDATA section. -/
inductive OlxNode where
  | element (tag : String) (attrs : List (String × String)) (children : List OlxNode)
  | cdata (text : String)

/-- Exceptions raised by the export code: `KeyError` for a missing dictionary
key, and `OlxExportException` (carrying its message) for an unsupported
content type. -/
inductive OlxError where
  | keyError (key : String)
  | exportException (msg : String)
deriving DecidableEq

/-- One node of the normalized course outline (`element_data` in the source):
optional `title`, optional `identifierref`, optional `children` list.  An
`Option` field models presence or absence of the dictionary key. -/
inductive OutlineNode where
  | mk (title : Option String) (identifierref : Option String)
       (children : Option (List OutlineNode))

/-- The `title` key of an outline node, if present. -/
def OutlineNode.title : OutlineNode → Option String
  | .mk t _ _ => t

/-- The `identifierref` key of an outline node, if present. -/
def OutlineNode.identifierref : OutlineNode → Option String
  | .mk _ i _ => i

/-- The `children` key of an outline node, if present. -/
def OutlineNode.children : OutlineNode → Option (List OutlineNode)
  | .mk _ _ c => c

/-! ### Python string primitives -/

/-- Python `str.replace(old, new)` for a non-empty pattern `o :: os`:
replace every non-overlapping occurrence, scanning left to right.  The fuel
starts at the string length; every step consumes at least one character, so
it never runs out. -/
def replaceNEAux (o : Char) (os new : List Char) : Nat → List Char → List Char
  | 0, s => s
  | _ + 1, [] => []
  | fuel + 1, c :: rest =>
    if (o :: os).isPrefixOf (c :: rest) then
      new ++ replaceNEAux o os new fuel (rest.drop os.length)
    else
      c :: replaceNEAux o os new fuel rest

/-- Python `str.replace(old, new)`.  An empty pattern inserts `new` before
every character and at the end, as Python does. -/
def replaceAll (s old new : List Char) : List Char :=
  match old with
  | [] => new ++ s.foldr (fun c acc => c :: (new ++ acc)) []
  | o :: os => replaceNEAux o os new s.length s

/-- The characters matched by the regex class `\s` (ASCII range). -/
def isSpaceA (c : Char) : Bool :=
  c == ' ' || c == '\t' || c == '\n' || c == '\r' || c == '\x0b' || c == '\x0c'

/-- Scan for the closing quote of the lazy group in `src\s*=\s*"(.+?)"`:
returns the characters before the next `"` and the remainder after it.
Fails if a newline (which `.` does not match) comes first. -/
def findClose : List Char → Option (List Char × List Char)
  | [] => none
  | c :: rest =>
    if c = '"' then some ([], rest)
    else if c = '\n' then none
    else
      match findClose rest with
      | some (cap, rem) => some (c :: cap, rem)
      | none => none

/-- The lazy group `(.+?)"`: the capture is the shortest non-empty,
newline-free run of characters followed by a `"`. -/
def takeCap : List Char → Option (List Char × List Char)
  | [] => none
  | c :: rest =>
    if c = '\n' then none
    else
      match findClose rest with
      | some (cap, rem) => some (c :: cap, rem)
      | none => none

/-- Attempt to match the regex `src\s*=\s*"(.+?)"` at the head of the list;
on success return the captured group and the remainder after the match. -/
def matchSrcAt : List Char → Option (List Char × List Char)
  | 's' :: 'r' :: 'c' :: rest =>
    match rest.dropWhile isSpaceA with
    | '=' :: rest2 =>
      match rest2.dropWhile isSpaceA with
      | '"' :: rest3 => takeCap rest3
      | _ => none
    | _ => none
  | _ => none

/-- Scanner for `re.findall`: try a match at every position, left to right,
resuming after the end of each match.  The fuel starts at the string length,
which bounds the number of scanning steps. -/
def findSrcsAux : Nat → List Char → List (List Char)
  | 0, _ => []
  | _ + 1, [] => []
  | fuel + 1, c :: rest =>
    match matchSrcAt (c :: rest) with
    | some (cap, rem) => cap :: findSrcsAux fuel rem
    | none => findSrcsAux fuel rest

/-- Python `re.findall(r'src\s*=\s*"(.+?)"', html)`: the list of captured
`src` attribute values, in order of occurrence. -/
def findSrcs (s : List Char) : List (List Char) :=
  findSrcsAux s.length s

/-- The value of a hexadecimal digit, if the character is one. -/
def hexVal? (c : Char) : Option Nat :=
  if '0' ≤ c ∧ c ≤ '9' then some (c.toNat - '0'.toNat)
  else if 'a' ≤ c ∧ c ≤ 'f' then some (c.toNat - 'a'.toNat + 10)
  else if 'A' ≤ c ∧ c ≤ 'F' then some (c.toNat - 'A'.toNat + 10)
  else none

/-- The Unicode replacement character used by `errors='replace'`. -/
def replChar : Char := Char.ofNat 0xFFFD

/-- Is the byte a UTF-8 continuation byte? -/
def isCont (b : Nat) : Bool := 0x80 ≤ b && b < 0xC0

/-- Decode a byte sequence as UTF-8 with `errors='replace'` (as
`bytes.decode('utf-8', 'replace')` does): ill-formed sequences contribute a
replacement character for each maximal valid subpart. -/
def utf8DDAux : Nat → List Nat → List Char
  | 0, _ => []
  | _ + 1, [] => []
  | fuel + 1, b :: rest =>
    if b < 0x80 then Char.ofNat b :: utf8DDAux fuel rest
    else if b < 0xC2 then replChar :: utf8DDAux fuel rest
    else if b < 0xE0 then
      match rest with
      | b2 :: r2 =>
        if isCont b2 then Char.ofNat ((b - 0xC0) * 0x40 + (b2 - 0x80)) :: utf8DDAux fuel r2
        else replChar :: utf8DDAux fuel (b2 :: r2)
      | [] => [replChar]
    else if b < 0xF0 then
      match rest with
      | b2 :: r2 =>
        if (if b = 0xE0 then decide (0xA0 ≤ b2) && decide (b2 < 0xC0)
            else if b = 0xED then decide (0x80 ≤ b2) && decide (b2 < 0xA0)
            else isCont b2) then
          match r2 with
          | b3 :: r3 =>
            if isCont b3 then
              Char.ofNat ((b - 0xE0) * 0x1000 + (b2 - 0x80) * 0x40 + (b3 - 0x80)) :: utf8DDAux fuel r3
            else replChar :: utf8DDAux fuel (b3 :: r3)
          | [] => [replChar]
        else replChar :: utf8DDAux fuel (b2 :: r2)
      | [] => [replChar]
    else if b < 0xF5 then
      match rest with
      | b2 :: r2 =>
        if (if b = 0xF0 then decide (0x90 ≤ b2) && decide (b2 < 0xC0)
            else if b = 0xF4 then decide (0x80 ≤ b2) && decide (b2 < 0x90)
            else isCont b2) then
          match r2 with
          | b3 :: r3 =>
            if isCont b3 then
              match r3 with
              | b4 :: r4 =>
                if isCont b4 then
                  Char.ofNat ((b - 0xF0) * 0x40000 + (b2 - 0x80) * 0x1000 +
                    (b3 - 0x80) * 0x40 + (b4 - 0x80)) :: utf8DDAux fuel r4
                else replChar :: utf8DDAux fuel (b4 :: r4)
              | [] => [replChar]
            else replChar :: utf8DDAux fuel (b3 :: r3)
          | [] => [replChar]
        else replChar :: utf8DDAux fuel (b2 :: r2)
      | [] => [replChar]
    else replChar :: utf8DDAux fuel rest

/-- Decode a byte sequence as UTF-8 with replacement; the fuel starts at the
byte count and every step consumes at least one byte. -/
def utf8DD (bs : List Nat) : List Char := utf8DDAux bs.length bs

/-- Worker for `urllib.parse.unquote`: `acc` holds (reversed) the bytes of the
current maximal run of consecutive `%XX` escapes; when the run ends it is
UTF-8-decoded with replacement.  An invalid escape leaves `%` literal. -/
def unquoteAux : List Char → List Nat → List Char
  | [], acc => utf8DD acc.reverse
  | '%' :: h1 :: h2 :: rest, acc =>
    match hexVal? h1, hexVal? h2 with
    | some a, some b => unquoteAux rest ((16 * a + b) :: acc)
    | _, _ => utf8DD acc.reverse ++ '%' :: unquoteAux (h1 :: h2 :: rest) []
  | c :: rest, acc => utf8DD acc.reverse ++ c :: unquoteAux rest []

/-- `urllib.parse.unquote` with the default `utf-8` encoding and
`errors='replace'`, for the fragment exercised by `olx.py`. -/
def unquote (s : List Char) : List Char := unquoteAux s []

/-! ### Static-Link Rewriter (`OlxExport._process_static_links`) -/

/-- The placeholder token searched for inside each `src` value. -/
def imsToken : List Char := "IMS-CC-FILEBASE".toList

/-- Python's substring test `needle in hay` on strings as char lists. -/
def hasSub (needle : List Char) : List Char → Bool
  | [] => needle.isEmpty
  | c :: rest => needle.isPrefixOf (c :: rest) || hasSub needle rest

/-- The dollar-delimited placeholder replaced after percent-decoding. -/
def imsBase : List Char := "$IMS-CC-FILEBASE$".toList

/-- The body of the rewriting loop of `_process_static_links`: if the `src`
value contains the token, percent-decode it, replace the placeholder by
`/static`, and replace the original value everywhere in the evolving text. -/
def rewriteSrcStep (h src : List Char) : List Char :=
  if hasSub imsToken src then
    replaceAll h src (replaceAll (unquote src) imsBase "/static".toList)
  else h

/-- `OlxExport._process_static_links`: collect all `src="..."` values up
front, then run the rewriting loop over them on the evolving text. -/
def process_static_links (html : String) : String :=
  let srcs := findSrcs html.toList
  String.mk (srcs.foldl rewriteSrcStep html.toList)

/-! ### Link Classifier (`process_link`) -/

/-- The regex class `\w` (ASCII fragment): letters, digits, underscore. -/
def isWordChar (c : Char) : Bool := c.isAlphanum || c == '_'

/-- The regex class `[-\w]` used for the captured YouTube id. -/
def isYtIdChar (c : Char) : Bool := isWordChar c || c == '-'

/-- Strip an expected literal from the head of the list, if it is there. -/
def stripLit : List Char → List Char → Option (List Char)
  | [], s => some s
  | _ :: _, [] => none
  | p :: ps, c :: cs => if p = c then stripLit ps cs else none

/-- Attempt to match `youtube.com/watch\?v=([-\w]+)` at the head of the
list: the literal `youtube`, one arbitrary non-newline character (the
unescaped `.`), the literal `com/watch?v=`, then a maximal non-empty run of
id characters, which is the captured group. -/
def ytMatchAt : List Char → Option (List Char)
  | 'y' :: 'o' :: 'u' :: 't' :: 'u' :: 'b' :: 'e' :: d :: rest =>
    if d = '\n' then none
    else
      match stripLit "com/watch?v=".toList rest with
      | some rest2 =>
        let cap := rest2.takeWhile isYtIdChar
        if cap.isEmpty then none else some cap
      | none => none
  | _ => none

/-- `re.search` for the YouTube pattern: return the captured group of the
leftmost match, scanning start positions left to right. -/
def ytSearch : List Char → Option (List Char)
  | [] => none
  | c :: rest =>
    match ytMatchAt (c :: rest) with
    | some cap => some cap
    | none => ytSearch rest

/-- Look a key up in a detail dictionary and require a string value.  A key
bound to a non-string behaves like a missing key in this model (in Python it
would fail further on). -/
def getStr (details : Details) (key : String) : Option String :=
  match details.lookup key with
  | some (.str s) => some s
  | _ => none

/-- `process_link`: convert a `link` descriptor either to a video (when the
YouTube pattern matches the href) or to an HTML anchor whose text defaults to
the empty string.  A missing `href` key is a `KeyError`. -/
def process_link (details : Details) : Except OlxError (String × Details) :=
  match getStr details "href" with
  | none => .error (.keyError "href")
  | some href =>
    match ytSearch href.toList with
    | some vid => .ok ("video", [("youtube", .str (String.mk vid))])
    | none =>
      .ok ("html",
        [("html", .str ("<a href='" ++ href ++ "'>" ++
          ((getStr details "text").getD "") ++ "</a>"))])

/-! ### Content Node Builder -/

/-- Look a key up and require a string, raising `KeyError` when absent. -/
def getS (details : Details) (key : String) : Except OlxError String :=
  match getStr details key with
  | some s => .ok s
  | none => .error (.keyError key)

/-- `OlxExport._create_lti_node`: one `lti_consumer` element whose attributes
are set in source order; `custom_parameters` is the bracketed, quoted,
comma-separated rendering of the pairs in insertion order. -/
def create_lti_node (details : Details) : Except OlxError OlxNode :=
  match details.lookup "custom_parameters" with
  | some (.dict cps) =>
    let custom_parameters :=
      "[" ++ String.intercalate ", "
        (cps.map (fun kv => "\"" ++ kv.1 ++ "=" ++ kv.2 ++ "\"")) ++ "]"
    match getStr details "description", getStr details "title",
          getStr details "height", getStr details "width",
          getStr details "launch_url" with
    | some desc, some ttl, some hgt, some wdt, some lurl =>
      .ok (.element "lti_consumer"
        [("custom_parameters", custom_parameters),
         ("description", desc),
         ("display_name", ttl),
         ("inline_height", hgt),
         ("inline_width", wdt),
         ("launch_url", lurl),
         ("modal_height", hgt),
         ("modal_width", wdt),
         ("xblock-family", "xblock.v1")] [])
    | none, _, _, _, _ => .error (.keyError "description")
    | _, none, _, _, _ => .error (.keyError "title")
    | _, _, none, _, _ => .error (.keyError "height")
    | _, _, _, none, _ => .error (.keyError "width")
    | _, _, _, _, none => .error (.keyError "launch_url")
  | _ => .error (.keyError "custom_parameters")

/-- `OlxExport._create_olx_nodes`: build the leaf OLX nodes for one content
item.  The QTI collaborator is an external parameter returning ready-made
nodes.  A content type outside the supported set raises
`OlxExportException`. -/
def create_olx_nodes (qtiBuilder : Details → List OlxNode)
    (content_type : String) (details : Details) :
    Except OlxError (List OlxNode) :=
  if content_type = "html" then
    match getStr details "html" with
    | some h => .ok [.element "html" [] [.cdata (process_static_links h)]]
    | none => .error (.keyError "html")
  else if content_type = "video" then
    match getStr details "youtube" with
    | some y =>
      .ok [.element "video" [("youtube", "1.00:" ++ y), ("youtube_id_1_0", y)] []]
    | none => .error (.keyError "youtube")
  else if content_type = "lti" then
    match create_lti_node details with
    | .ok n => .ok [n]
    | .error e => .error e
  else if content_type = "qti" then
    .ok (qtiBuilder details)
  else
    .error (.exportException
      ("Content type \"" ++ content_type ++ "\" is not supported."))

/-! ### Content resolution (`OlxExport._get_content`) -/

/-- `OlxExport._get_content`.  The cartridge resolver is a parameter; `none`
covers both a node without `identifierref` and a resolver answering with a
`None` content type, in which case the placeholder HTML is substituted.  A
`link` descriptor is passed through the Link Classifier. -/
def get_content (resolve : String → Option (String × Details))
    (n : OutlineNode) : Except OlxError (String × Details) :=
  let resolved :=
    match n.identifierref with
    | some idref => resolve idref
    | none => none
  match resolved with
  | none => .ok ("html", [("html", .str "<p>MISSING CONTENT</p>")])
  | some (ct, det) => if ct = "link" then process_link det else .ok (ct, det)

/-! ### Tree Mapper (`OlxExport._add_olx_nodes`) -/

/-- `minidom` `setAttribute`: replace the value in place if the attribute
exists, otherwise append it.  (In `olx.py` it is only ever applied to
elements.) -/
def setAttrList (attrs : List (String × String)) (k v : String) :
    List (String × String) :=
  match attrs with
  | [] => [(k, v)]
  | (k', v') :: rest =>
    if k' = k then (k, v) :: rest else (k', v') :: setAttrList rest k v

/-- `setAttribute` on a node; a CDATA section is left unchanged (the source
never reaches that case). -/
def setAttr : OlxNode → String → String → OlxNode
  | .element tag attrs children, k, v => .element tag (setAttrList attrs k v) children
  | .cdata s, _, _ => .cdata s

/-- Append freshly built children at the end of a node's child list, as the
recursive `appendChild` calls do. -/
def appendChildren : OlxNode → List OlxNode → OlxNode
  | .element t a cs, new => .element t a (cs ++ new)
  | .cdata s, _ => .cdata s

/-- Auxiliary fact for termination: the children list of an outline node is
smaller than the node. -/
theorem sizeOf_children_lt (n : OutlineNode) (kids : List OutlineNode)
    (h : n.children = some kids) : sizeOf kids < sizeOf n := by
  cases n with
  | mk t i c =>
    cases c with
    | none => simp [OutlineNode.children] at h
    | some k =>
      simp [OutlineNode.children] at h
      subst h
      simp
      omega

mutual

/-- `OlxExport._add_olx_nodes`: process a list of outline nodes against the
remaining container-tag list, returning the nodes appended to the parent (a
raised exception aborts the whole traversal). -/
def add_olx_nodes (res : String → Option (String × Details))
    (qb : Details → List OlxNode) :
    List OutlineNode → List String → Except OlxError (List OlxNode)
  | [], _ => .ok []
  | n :: rest, tags =>
    match addOne res qb n tags with
    | .error e => .error e
    | .ok cs =>
      match add_olx_nodes res qb rest tags with
      | .error e => .error e
      | .ok os => .ok (cs ++ os)
termination_by data _ => (sizeOf data, 2, 0)
decreasing_by
  · exact Prod.Lex.left _ _ (by simp; omega)
  · exact Prod.Lex.left _ _ (by simp)

/-- One iteration of the outer loop of `_add_olx_nodes`: build the children
for one outline node (a single fresh container at non-leaf depth, the
resolved content nodes at leaf depth), then run the inner loop. -/
def addOne (res : String → Option (String × Details))
    (qb : Details → List OlxNode) (n : OutlineNode) (tags : List String) :
    Except OlxError (List OlxNode) :=
  match tags with
  | [] =>
    match get_content res n with
    | .error e => .error e
    | .ok (ct, det) =>
      match create_olx_nodes qb ct det with
      | .error e => .error e
      | .ok children => attachAll res qb n [] children
  | tag :: restTags =>
    attachAll res qb n restTags [.element tag [] []]
termination_by (sizeOf n, 1, 0)
decreasing_by
  · exact Prod.Lex.right _ (Prod.Lex.left _ _ (by omega))
  · exact Prod.Lex.right _ (Prod.Lex.left _ _ (by omega))

/-- The inner loop of `_add_olx_nodes`: for each child, set the display name
when the outline node has a `title`, append it to the parent, and when the
outline node has a `children` key recurse into it with the tag list minus its
first element, attaching the results under the child. -/
def attachAll (res : String → Option (String × Details))
    (qb : Details → List OlxNode) (n : OutlineNode) (tagsTail : List String) :
    List OlxNode → Except OlxError (List OlxNode)
  | [] => .ok []
  | c :: cs =>
    let c1 := match n.title with
      | some t => setAttr c "display_name" t
      | none => c
    match h : n.children with
    | some kids =>
      match add_olx_nodes res qb kids tagsTail with
      | .error e => .error e
      | .ok sub =>
        match attachAll res qb n tagsTail cs with
        | .error e => .error e
        | .ok os => .ok (appendChildren c1 sub :: os)
    | none =>
      match attachAll res qb n tagsTail cs with
      | .error e => .error e
      | .ok os => .ok (c1 :: os)
termination_by cs => (sizeOf n, 0, cs.length)
decreasing_by
  · exact Prod.Lex.left _ _ (sizeOf_children_lt n kids h)
  · exact Prod.Lex.right _ (Prod.Lex.right _ (by simp))
  · exact Prod.Lex.right _ (Prod.Lex.right _ (by simp))

end

/-! ### Theorems -/

/-- The rewriting loop is the identity when no collected `src` value
contains the placeholder token. -/
theorem foldl_rewriteSrcStep_id :
    ∀ (l : List (List Char)) (s : List Char),
      (∀ x ∈ l, hasSub imsToken x = false) → l.foldl rewriteSrcStep s = s := by
  intro l
  induction l with
  | nil => intro s _; rfl
  | cons x xs ih =>
    intro s h
    have hx : hasSub imsToken x = false := h x (List.mem_cons_self x xs)
    have hxs : ∀ y ∈ xs, hasSub imsToken y = false :=
      fun y hy => h y (List.mem_cons_of_mem x hy)
    simp only [List.foldl_cons, rewriteSrcStep, hx, Bool.false_eq_true, if_false]
    exact ih s hxs

/-- `_process_static_links` leaves the text unchanged when no `src`
attribute value in it contains the placeholder token. -/
theorem process_static_links_id_of_no_token (html : String)
    (h : ∀ src ∈ findSrcs html.toList, hasSub imsToken src = false) :
    process_static_links html = html := by
  show String.mk ((findSrcs html.toList).foldl rewriteSrcStep html.toList) = html
  rw [foldl_rewriteSrcStep_id _ _ h]
  rfl

/-- C7: for the LTI details with height 400, width 600, title T,
description D, launch url U and custom parameters a=1, b=2 (in insertion
order), the builder yields a single `lti_consumer` element with
`inline_height` and `modal_height` 400, `inline_width` and `modal_width`
600, `display_name` T, `description` D, `launch_url` U, the bracketed
quoted custom-parameter list, and `xblock-family` `xblock.v1`. -/
theorem c7_lti_node :
    create_olx_nodes (fun _ => []) "lti"
      [("height", .str "400"), ("width", .str "600"), ("title", .str "T"),
       ("description", .str "D"), ("launch_url", .str "U"),
       ("custom_parameters", .dict [("a", "1"), ("b", "2")])] =
    .ok [.element "lti_consumer"
      [("custom_parameters", "[\"a=1\", \"b=2\"]"),
       ("description", "D"),
       ("display_name", "T"),
       ("inline_height", "400"),
       ("inline_width", "600"),
       ("launch_url", "U"),
       ("modal_height", "400"),
       ("modal_width", "600"),
       ("xblock-family", "xblock.v1")] []] := by
  rfl

/-- C10: the YouTube match is an unanchored substring search whose
unescaped dot matches any character: an href whose host is not youtube.com,
here containing `youtubeXcom/watch?v=abc`, is still classified as a video
with the captured id, not as an HTML anchor. -/
theorem c10_dot_matches_any :
    process_link [("href", .str "https://youtubeXcom/watch?v=abc")] =
      .ok ("video", [("youtube", .str "abc")]) := by
  rfl

/-- C8: every resolved content type outside html, video, lti, qti makes the
node builder raise `OlxExportException` with a message naming the offending
type, so no OLX nodes are produced for the item. -/
theorem c8_unsupported_type (qb : Details → List OlxNode)
    (ct : String) (det : Details)
    (h1 : ct ≠ "html") (h2 : ct ≠ "video") (h3 : ct ≠ "lti") (h4 : ct ≠ "qti") :
    create_olx_nodes qb ct det =
      .error (.exportException ("Content type \"" ++ ct ++ "\" is not supported.")) := by
  unfold create_olx_nodes
  rw [if_neg h1, if_neg h2, if_neg h3, if_neg h4]

/-- Witness for C8 at the concrete unsupported type `webcontent`. -/
theorem c8_unsupported_type_witness :
    create_olx_nodes (fun _ => []) "webcontent" [] =
      .error (.exportException "Content type \"webcontent\" is not supported.") :=
  c8_unsupported_type (fun _ => []) "webcontent" []
    (by decide) (by decide) (by decide) (by decide)

/-- C3 counterexample: the rewriter is not idempotent.  A doubly
percent-encoded placeholder is decoded one level per pass, so the second
pass changes the output of the first again. -/
theorem c3_counterexample :
    process_static_links (process_static_links "<img src=\"%2524IMS-CC-FILEBASE\">") ≠
      process_static_links "<img src=\"%2524IMS-CC-FILEBASE\">" := by
  decide

/-- C3 as amended: the rewriter is idempotent on every input whose rewritten
form has no `src` value still containing the placeholder token (in
particular on all fully rewritten or token-free documents). -/
theorem c3_idempotent_when_output_token_free (html : String)
    (h : ∀ src ∈ findSrcs (process_static_links html).toList,
        hasSub imsToken src = false) :
    process_static_links (process_static_links html) = process_static_links html :=
  process_static_links_id_of_no_token (process_static_links html) h

/-- Witness for the amended C3: a typical placeholder link is rewritten to
`/static/a.png` in one pass and the second pass is then the identity. -/
theorem c3_idempotent_witness :
    (∀ src ∈ findSrcs (process_static_links "<img src=\"%24IMS-CC-FILEBASE%24/a.png\">").toList,
        hasSub imsToken src = false) ∧
    process_static_links (process_static_links "<img src=\"%24IMS-CC-FILEBASE%24/a.png\">") =
      process_static_links "<img src=\"%24IMS-CC-FILEBASE%24/a.png\">" :=
  ⟨by decide, c3_idempotent_when_output_token_free _ (by decide)⟩

/-- C4 counterexample: the rewrite is a global text replacement, so body
text equal to a matching `src` value is rewritten too — here the `<p>`
body, which is not a `src` attribute value, changes from the encoded
placeholder path to `/static/x.png`. -/
theorem c4_counterexample :
    process_static_links
        "<p>%24IMS-CC-FILEBASE%24/x.png</p><img src=\"%24IMS-CC-FILEBASE%24/x.png\">" =
      "<p>/static/x.png</p><img src=\"/static/x.png\">" ∧
    ¬ ("<p>%24IMS-CC-FILEBASE%24/x.png</p>".toList <+:
        (process_static_links
          "<p>%24IMS-CC-FILEBASE%24/x.png</p><img src=\"%24IMS-CC-FILEBASE%24/x.png\">").toList) := by
  constructor
  · rfl
  · decide

/-- C4 as amended: the rewriter can change any occurrence of a matching
`src` value anywhere in the text, not only inside `src` attributes; but when
no `src` attribute value contains the placeholder token, the whole text —
attributes, body text and all — is byte-for-byte unchanged. -/
theorem c4_frame_when_no_matching_src (html : String)
    (h : ∀ src ∈ findSrcs html.toList, hasSub imsToken src = false) :
    process_static_links html = html :=
  process_static_links_id_of_no_token html h

/-- Witness for the amended C4: body text containing the bare token is left
untouched because no `src` value contains the token. -/
theorem c4_frame_witness :
    (∀ src ∈ findSrcs "<p>IMS-CC-FILEBASE</p><img src=\"a.png\">".toList,
        hasSub imsToken src = false) ∧
    process_static_links "<p>IMS-CC-FILEBASE</p><img src=\"a.png\">" =
      "<p>IMS-CC-FILEBASE</p><img src=\"a.png\">" :=
  ⟨by decide, c4_frame_when_no_matching_src _ (by decide)⟩

/-- C6: an href on which the YouTube search fails is classified as html
with body `<a href='HREF'>TEXT</a>`, where TEXT is the `text` detail,
defaulting to the empty string when absent. -/
theorem c6_anchor_fallback (details : Details) (href : String)
    (h1 : getStr details "href" = some href)
    (h2 : ytSearch href.toList = none) :
    process_link details =
      .ok ("html", [("html", .str ("<a href='" ++ href ++ "'>" ++
        ((getStr details "text").getD "") ++ "</a>"))]) := by
  unfold process_link
  simp only [h1, h2]

/-- Witness for C6 on a concrete non-YouTube href without a `text` detail. -/
theorem c6_anchor_fallback_witness :
    ytSearch "https://example.com/p".toList = none ∧
    process_link [("href", DVal.str "https://example.com/p")] =
      .ok ("html", [("html", .str "<a href='https://example.com/p'></a>")]) :=
  ⟨by decide,
    c6_anchor_fallback [("href", DVal.str "https://example.com/p")]
      "https://example.com/p" rfl (by decide)⟩

/-- Stripping a literal from a list that starts with it returns the rest. -/
theorem stripLit_append (p r : List Char) : stripLit p (p ++ r) = some r := by
  induction p with
  | nil => rfl
  | cons c cs ih => simp [stripLit, ih]

/-- `takeWhile` over a concatenation whose first part satisfies the
predicate and whose second part starts with a failing character (or is
empty) returns exactly the first part. -/
theorem takeWhile_append_boundary (p : Char → Bool) (v suf : List Char)
    (hv : ∀ c ∈ v, p c = true)
    (hs : ∀ c, suf.head? = some c → p c = false) :
    (v ++ suf).takeWhile p = v := by
  induction v with
  | nil =>
    cases suf with
    | nil => rfl
    | cons c cs => simp [List.takeWhile_cons, hs c rfl]
  | cons c cs ih =>
    simp [List.takeWhile_cons, hv c (List.mem_cons_self c cs),
      ih (fun d hd => hv d (List.mem_cons_of_mem c hd))]

/-- The YouTube pattern matches at the start of
`youtube.com/watch?v=` followed by a non-empty id run. -/
theorem ytMatchAt_marker (vid suf : List Char)
    (h2 : vid ≠ [])
    (h3 : ∀ c ∈ vid, isYtIdChar c = true)
    (h4 : ∀ c, suf.head? = some c → isYtIdChar c = false) :
    ytMatchAt ("youtube.com/watch?v=".toList ++ vid ++ suf) = some vid := by
  have hm : "youtube.com/watch?v=".toList =
      'y' :: 'o' :: 'u' :: 't' :: 'u' :: 'b' :: 'e' :: '.' :: "com/watch?v=".toList := rfl
  rw [hm]
  simp only [List.cons_append, List.append_assoc]
  rw [ytMatchAt]
  simp only [if_neg (by decide : ¬ ('.' : Char) = '\n')]
  rw [stripLit_append]
  simp only [takeWhile_append_boundary isYtIdChar vid suf h3 h4]
  rw [if_neg (by simpa [List.isEmpty_iff] using h2)]

/-- A successful match at the head makes the search succeed at once. -/
theorem ytSearch_of_matchAt (s : List Char) (cap : List Char)
    (h : ytMatchAt s = some cap) : ytSearch s = some cap := by
  cases s with
  | nil => simp [ytMatchAt] at h
  | cons c rest => rw [ytSearch, h]

/-- Scanning skips a prefix on which no match starts. -/
theorem ytSearch_skip (pre s : List Char)
    (h : ∀ i, i < pre.length → ytMatchAt ((pre ++ s).drop i) = none) :
    ytSearch (pre ++ s) = ytSearch s := by
  induction pre with
  | nil => rfl
  | cons c cs ih =>
    have h0 : ytMatchAt (c :: (cs ++ s)) = none := by
      have := h 0 (Nat.succ_pos _)
      simpa using this
    rw [List.cons_append, ytSearch, h0]
    exact ih (fun i hi => by
      have := h (i + 1) (Nat.succ_lt_succ hi)
      simpa using this)

/-- C5: an href of the form `...youtube.com/watch?v=<id><rest>` where the
id is a non-empty run of word characters and hyphens, `<rest>` does not
extend the run, and no match starts earlier, is classified as a video whose
YouTube id is exactly `<id>`, whatever query parameters follow. -/
theorem c5_youtube_id (details : Details) (pre vid suf : List Char)
    (h1 : getStr details "href" =
      some (String.mk (pre ++ "youtube.com/watch?v=".toList ++ vid ++ suf)))
    (h2 : vid ≠ [])
    (h3 : ∀ c ∈ vid, isYtIdChar c = true)
    (h4 : ∀ c, suf.head? = some c → isYtIdChar c = false)
    (h5 : ∀ i, i < pre.length →
      ytMatchAt ((pre ++ "youtube.com/watch?v=".toList ++ vid ++ suf).drop i) = none) :
    process_link details = .ok ("video", [("youtube", .str (String.mk vid))]) := by
  have hsearch :
      ytSearch (String.mk (pre ++ "youtube.com/watch?v=".toList ++ vid ++ suf)).toList =
        some vid := by
    show ytSearch (pre ++ "youtube.com/watch?v=".toList ++ vid ++ suf) = some vid
    rw [List.append_assoc, List.append_assoc]
    rw [ytSearch_skip pre _ (by
      intro i hi
      have := h5 i hi
      simpa [List.append_assoc] using this)]
    exact ytSearch_of_matchAt _ _
      (by simpa [List.append_assoc] using ytMatchAt_marker vid suf h2 h3 h4)
  unfold process_link
  simp only [h1, hsearch]

/-- Witness for C5 on a realistic watch URL with trailing parameters. -/
theorem c5_youtube_id_witness :
    ("dQw4w9WgXcQ".toList ≠ []) ∧
    process_link [("href", DVal.str "https://www.youtube.com/watch?v=dQw4w9WgXcQ&t=10s")] =
      .ok ("video", [("youtube", .str "dQw4w9WgXcQ")]) :=
  ⟨by decide,
    c5_youtube_id [("href", DVal.str "https://www.youtube.com/watch?v=dQw4w9WgXcQ&t=10s")]
      "https://www.".toList "dQw4w9WgXcQ".toList "&t=10s".toList
      (by decide) (by decide) (by decide) (by decide) (by decide)⟩

/-- C2: a leaf outline node with no `identifierref`, or whose reference the
resolver cannot type, resolves to html details `<p>MISSING CONTENT</p>`
without error, and the node builder turns exactly that into a single `html`
element whose CDATA body is exactly `<p>MISSING CONTENT</p>`. -/
theorem c2_missing_content (res : String → Option (String × Details))
    (qb : Details → List OlxNode) (n : OutlineNode)
    (h : n.identifierref = none ∨
      ∃ i, n.identifierref = some i ∧ res i = none) :
    get_content res n = .ok ("html", [("html", .str "<p>MISSING CONTENT</p>")]) ∧
    create_olx_nodes qb "html" [("html", .str "<p>MISSING CONTENT</p>")] =
      .ok [.element "html" [] [.cdata "<p>MISSING CONTENT</p>"]] := by
  constructor
  · unfold get_content
    rcases h with h | ⟨i, hi, hr⟩
    · simp only [h]
    · simp only [hi, hr]
  · rfl

/-- Witness for C2 on a bare leaf node with an always-failing resolver. -/
theorem c2_missing_content_witness :
    get_content (fun _ => none) (.mk none none none) =
      .ok ("html", [("html", .str "<p>MISSING CONTENT</p>")]) ∧
    create_olx_nodes (fun _ => []) "html" [("html", .str "<p>MISSING CONTENT</p>")] =
      .ok [.element "html" [] [.cdata "<p>MISSING CONTENT</p>"]] :=
  c2_missing_content (fun _ => none) (fun _ => []) (.mk none none none) (Or.inl rfl)

/-- The display-name attribute list a fresh container carries after the
title rule: exactly one `display_name` entry when the outline node has a
`title`, none otherwise. -/
def dispAttrs : Option String → List (String × String)
  | some t => [("display_name", t)]
  | none => []

/-- Closed form of one non-leaf iteration: exactly one container element
carrying the first remaining tag, the display-name attributes dictated by
the title, and the recursively mapped children. -/
theorem addOne_nonleaf (res : String → Option (String × Details))
    (qb : Details → List OlxNode) (n : OutlineNode) (t : String) (ts : List String) :
    addOne res qb n (t :: ts) =
      match n.children with
      | some kids =>
        (match add_olx_nodes res qb kids ts with
         | .error e => .error e
         | .ok sub => .ok [.element t (dispAttrs n.title) sub])
      | none => .ok [.element t (dispAttrs n.title) []] := by
  rw [addOne]
  rw [attachAll]
  cases hc : n.children with
  | none =>
    cases ht : n.title <;>
      simp [ht, hc, attachAll, setAttr, setAttrList, dispAttrs]
  | some kids =>
    cases hk : add_olx_nodes res qb kids ts with
    | error e =>
      cases ht : n.title <;> simp [ht, hc, hk, dispAttrs]
    | ok sub =>
      cases ht : n.title <;>
        simp [ht, hc, hk, attachAll, setAttr, setAttrList, appendChildren, dispAttrs]

/-- C1: at every non-leaf level (non-empty remaining tag list), a successful
mapping produces exactly one container element per outline node, in order:
its tag is the first remaining tag, it carries a `display_name` attribute
equal to the node's title exactly when the node has a `title`, and its
children are exactly the recursively mapped `children` of the node (empty
when the node has no `children` key).  Applying the theorem again to the
recursive equation covers every non-leaf depth of a tree of depth at most
four mapped from `[chapter, sequential, vertical]`. -/
theorem c1_one_container_per_node (res : String → Option (String × Details))
    (qb : Details → List OlxNode) (data : List OutlineNode)
    (t : String) (ts : List String) (out : List OlxNode)
    (h : add_olx_nodes res qb data (t :: ts) = .ok out) :
    List.Forall₂ (fun (n : OutlineNode) (e : OlxNode) => ∃ sub,
      e = .element t (dispAttrs n.title) sub ∧
      (n.children = none → sub = []) ∧
      (∀ kids, n.children = some kids → add_olx_nodes res qb kids ts = .ok sub))
      data out := by
  induction data generalizing out with
  | nil =>
    rw [add_olx_nodes] at h
    simp only [Except.ok.injEq] at h
    subst h
    exact List.Forall₂.nil
  | cons n rest ih =>
    rw [add_olx_nodes, addOne_nonleaf] at h
    cases hc : n.children with
    | none =>
      simp only [hc] at h
      cases hrest : add_olx_nodes res qb rest (t :: ts) with
      | error e => rw [hrest] at h; simp at h
      | ok os =>
        rw [hrest] at h
        simp only [List.singleton_append, Except.ok.injEq] at h
        subst h
        exact List.Forall₂.cons
          ⟨[], rfl, fun _ => rfl, fun kids hk => by rw [hc] at hk; cases hk⟩
          (ih os hrest)
    | some kids =>
      simp only [hc] at h
      cases hsub : add_olx_nodes res qb kids ts with
      | error e => rw [hsub] at h; simp at h
      | ok sub =>
        rw [hsub] at h
        cases hrest : add_olx_nodes res qb rest (t :: ts) with
        | error e => rw [hrest] at h; simp at h
        | ok os =>
          rw [hrest] at h
          simp only [List.singleton_append, Except.ok.injEq] at h
          subst h
          exact List.Forall₂.cons
            ⟨sub, rfl,
              (fun hnone => by rw [hc] at hnone; cases hnone),
              (fun kids' hk => by
                rw [hc] at hk
                injection hk with he
                subst he
                exact hsub)⟩
            (ih os hrest)

/-- Witness for C1 on a one-chapter outline carrying a title and no
children. -/
theorem c1_one_container_per_node_witness :
    add_olx_nodes (fun _ => none) (fun _ => [])
        [OutlineNode.mk (some "Ch") none none]
        ["chapter", "sequential", "vertical"] =
      .ok [.element "chapter" [("display_name", "Ch")] []] ∧
    List.Forall₂ (fun (n : OutlineNode) (e : OlxNode) => ∃ sub,
      e = .element "chapter" (dispAttrs n.title) sub ∧
      (n.children = none → sub = []) ∧
      (∀ kids, n.children = some kids →
        add_olx_nodes (fun _ => none) (fun _ => []) kids ["sequential", "vertical"] =
          .ok sub))
      [OutlineNode.mk (some "Ch") none none]
      [.element "chapter" [("display_name", "Ch")] []] := by
  have he : add_olx_nodes (fun _ => none) (fun _ => [])
      [OutlineNode.mk (some "Ch") none none]
      ["chapter", "sequential", "vertical"] =
      .ok [.element "chapter" [("display_name", "Ch")] []] := by
    rw [add_olx_nodes, addOne_nonleaf]
    rw [add_olx_nodes]
    rfl
  exact ⟨he, c1_one_container_per_node _ _ _ _ _ _ he⟩

/-- C9: a successful mapping emits, for each outline node in input order,
exactly the block of nodes produced for that node, concatenated in order —
siblings are never reordered at any level. -/
theorem c9_order_preserved (res : String → Option (String × Details))
    (qb : Details → List OlxNode) (data : List OutlineNode)
    (tags : List String) (out : List OlxNode)
    (h : add_olx_nodes res qb data tags = .ok out) :
    ∃ parts : List (List OlxNode),
      out = parts.flatten ∧
      List.Forall₂ (fun n p => addOne res qb n tags = .ok p) data parts := by
  induction data generalizing out with
  | nil =>
    rw [add_olx_nodes] at h
    simp only [Except.ok.injEq] at h
    subst h
    exact ⟨[], rfl, List.Forall₂.nil⟩
  | cons n rest ih =>
    rw [add_olx_nodes] at h
    cases h1 : addOne res qb n tags with
    | error e => rw [h1] at h; simp at h
    | ok cs =>
      rw [h1] at h
      cases h2 : add_olx_nodes res qb rest tags with
      | error e => rw [h2] at h; simp at h
      | ok os =>
        rw [h2] at h
        simp only [Except.ok.injEq] at h
        subst h
        obtain ⟨parts, hflat, hfa⟩ := ih os h2
        exact ⟨cs :: parts, by rw [List.flatten_cons, hflat], List.Forall₂.cons h1 hfa⟩

/-- Witness for C9 on a two-node outline at leaf depth: the two problem
nodes of the first (QTI) leaf precede the video node of the second leaf, in
builder order. -/
theorem c9_order_preserved_witness :
    add_olx_nodes
        (fun i => if i == "q1" then some ("qti", [])
          else some ("video", [("youtube", .str "vid42")]))
        (fun _ => [.element "p1" [] [], .element "p2" [] []])
        [OutlineNode.mk none (some "q1") none, OutlineNode.mk none (some "v1") none]
        [] =
      .ok [.element "p1" [] [], .element "p2" [] [],
        .element "video" [("youtube", "1.00:vid42"), ("youtube_id_1_0", "vid42")] []] ∧
    ∃ parts : List (List OlxNode),
      [OlxNode.element "p1" [] [], OlxNode.element "p2" [] [],
        OlxNode.element "video" [("youtube", "1.00:vid42"), ("youtube_id_1_0", "vid42")] []] =
        parts.flatten ∧
      List.Forall₂ (fun n p =>
        addOne
          (fun i => if i == "q1" then some ("qti", [])
            else some ("video", [("youtube", .str "vid42")]))
          (fun _ => [.element "p1" [] [], .element "p2" [] []]) n [] = .ok p)
        [OutlineNode.mk none (some "q1") none, OutlineNode.mk none (some "v1") none]
        parts := by
  have he : add_olx_nodes
      (fun i => if i == "q1" then some ("qti", [])
        else some ("video", [("youtube", .str "vid42")]))
      (fun _ => [.element "p1" [] [], .element "p2" [] []])
      [OutlineNode.mk none (some "q1") none, OutlineNode.mk none (some "v1") none]
      [] =
      .ok [.element "p1" [] [], .element "p2" [] [],
        .element "video" [("youtube", "1.00:vid42"), ("youtube_id_1_0", "vid42")] []] := by
    rw [add_olx_nodes, add_olx_nodes, add_olx_nodes]
    rw [addOne, addOne]
    simp [get_content, create_olx_nodes, getStr, attachAll,
      OutlineNode.identifierref, OutlineNode.title, OutlineNode.children]
  exact ⟨he, c9_order_preserved _ _ _ _ _ he⟩
